import Mathlib

/-!
# Verification of the Gemini Live video-description streaming pipeline

Shallow embedding of the real-time multimodal streaming pipeline that lives in
two near-duplicate copies in the repository:

* `src/server/services/gemini.py`, function `analyze_video` (the
  service-embedded variant), with its inner workers `send_frames`,
  `send_audio`, `send_to_session` and `receive`;
* `src/server/gemini-live/video_description.py`, function `describe_video`
  (the standalone variant), with its inner workers `send_frames`,
  `send_audio`, `send_to_session` and `receive_descriptions`.

Pure data transformations (frame tick generation, thumbnail resizing, audio
chunking, end-of-turn flagging, text accumulation) are translated into Lean
functions; the bounded `asyncio.Queue` is modelled as a state machine; the
coordinator `analyze_video` is modelled as a function over an environment
describing which of its fallible steps succeed.  Machine floats carried by the
Python code (durations, audio samples) are modelled as rationals; Python `int`
is modelled as `ℤ`/`ℕ` with explicit truncation and 16-bit wrap-around where
the code converts to `int16`.
-/

set_option linter.unusedVariables false

namespace VideoPipe

/-! ## Python-semantics helpers -/

/-- Python `int(x)` / numpy `astype` float-to-int conversion: truncation
toward zero. -/
def pyTrunc (q : ℚ) : ℤ :=
  if 0 ≤ q then ⌊q⌋ else ⌈q⌉

/-- Wrap an integer into the signed 16-bit range, as numpy `astype(np.int16)`
does, written with an explicit `% 2^16`. -/
def wrap16 (z : ℤ) : ℤ :=
  (z + 32768) % 65536 - 32768

/-- The ASCII whitespace characters removed by Python `str.strip()`. -/
def isPyWhitespace (c : Char) : Bool :=
  c = ' ' || c = '\t' || c = '\n' || c = '\r' || c = '\x0b' || c = '\x0c'

/-- Python `str.strip()`: drop leading and trailing whitespace. -/
def pyStrip (s : String) : String :=
  ⟨((s.data.dropWhile isPyWhitespace).reverse.dropWhile isPyWhitespace).reverse⟩

/-- Python `''.join(fragments)`: concatenation of a list of strings. -/
def concatAll : List String → String
  | [] => ""
  | s :: rest => s ++ concatAll rest

/-- Substring test on character lists (Python `needle in haystack`). -/
def containsSub (needle : List Char) : List Char → Bool
  | [] => needle.isPrefixOf []
  | c :: rest => needle.isPrefixOf (c :: rest) || containsSub needle rest

/-- ASCII lower-casing of one character, as `str.lower()` does on the
exception messages the code inspects. -/
def pyLowerChar (c : Char) : Char :=
  if 'A' ≤ c ∧ c ≤ 'Z' then Char.ofNat (c.toNat + 32) else c

/-- The check `"closed" in str(e).lower()` performed by the standalone
collector `receive_descriptions` (video_description.py line 158). -/
def containsClosed (s : String) : Bool :=
  containsSub ("closed".data) (s.data.map pyLowerChar)

/-! ## Data model: media source -/

/-- The audio array returned by moviepy `to_soundarray(fps=16000)`: either a
mono sample list or a stereo list of sample pairs (`len(audio.shape) > 1`).
Samples are floats in `[-1, 1]`, modelled as rationals. -/
inductive AudioArr where
  | mono (xs : List ℚ)
  | stereo (xs : List (ℚ × ℚ))
deriving DecidableEq

/-- A moviepy `VideoFileClip`: duration in seconds, the pixel dimensions that
every `get_frame(t)` result has, and the optional audio track
(`clip.audio`). -/
structure Clip where
  duration : ℚ
  width : ℕ
  height : ℕ
  audio : Option AudioArr
deriving DecidableEq

/-- A frame unit as produced by `send_frames`: the sample timestamp and the
dimensions after `img.thumbnail([768, 768])`. -/
structure Frame where
  t : ℚ
  width : ℕ
  height : ℕ
deriving DecidableEq

/-- PIL `Image.thumbnail([bound, bound])`: an image already inside the box is
left unchanged; otherwise it is scaled down preserving aspect ratio so that
it fits in the box (rounding modelled as floor division). -/
def thumbnail (w h bound : ℕ) : ℕ × ℕ :=
  if w ≤ bound ∧ h ≤ bound then (w, h)
  else if h ≤ w then (bound, h * bound / w)
  else (w * bound / h, bound)

/-- `numpy.arange(start, stop, step)` for positive `step`: the list
`start, start + step, …` of length `⌈(stop - start) / step⌉`. -/
def npArange (start stop step : ℚ) : List ℚ :=
  (List.range (Int.toNat ⌈(stop - start) / step⌉)).map
    (fun (i : ℕ) => start + (i : ℚ) * step)

/-- `SEND_SAMPLE_RATE` (video_description.py line 26); the same literal 16000
is passed to `to_soundarray` in gemini.py line 129. -/
def SEND_SAMPLE_RATE : ℕ := 16000

/-! ## FrameProducer: `send_frames`

gemini.py lines 109-123 / video_description.py lines 55-83.  Both variants
iterate `for t in np.arange(0, min(clip.duration, maxDuration), interval)`,
take `clip.get_frame(t)`, resize with `img.thumbnail([768, 768])` and enqueue
a JPEG frame message.  The service variant fixes `interval = 1.0` and takes
`max_duration` as a parameter (default 10.0); the standalone variant fixes
`frame_interval = 1.0` and the cap `10.0`.  The wall-clock `asyncio.sleep`
pacing has no effect on the produced data and is not modelled. -/

def send_frames (clip : Clip) (maxDuration interval : ℚ) : List Frame :=
  (npArange 0 (min clip.duration maxDuration) interval).map
    (fun t =>
      let wh := thumbnail clip.width clip.height 768
      { t := t, width := wh.1, height := wh.2 })

/-! ## AudioProducer: `send_audio`

gemini.py lines 125-140 / video_description.py lines 85-115.  If
`clip.audio` is `None` the worker returns immediately.  Otherwise the track
is read at 16 kHz, averaged to mono when stereo, scaled by 32767 and cast to
`int16`, and the loop `for i in range(0, len(audio), 1024)` enqueues the
slices `audio[i:i+1024]`. -/

/-- Stereo-to-mono conversion `audio.mean(axis=1)` (applied only when the
array has more than one dimension). -/
def toMono : AudioArr → List ℚ
  | .mono xs => xs
  | .stereo xs => xs.map (fun p => (p.1 + p.2) / 2)

/-- `(audio * 32767).astype(np.int16)` applied to the mono track. -/
def audioPCM (arr : AudioArr) : List ℤ :=
  (toMono arr).map (fun x => wrap16 (pyTrunc (x * 32767)))

/-- Python `range(0, stop, step)` for positive `step`: the indices
`0, step, 2·step, …` below `stop`. -/
def pyRangeStep (stop step : ℕ) : List ℕ :=
  (List.range ((stop + step - 1) / step)).map (fun j => j * step)

/-- The slicing loop `for i in range(0, len(audio), 1024)` of `send_audio`,
producing the enqueued chunks `audio[i:i+1024]` in order. -/
def send_audio_chunks (pcm : List ℤ) : List (List ℤ) :=
  (pyRangeStep pcm.length 1024).map (fun i => (pcm.drop i).take 1024)

/-- The audio worker `send_audio`: the chunk sequence it enqueues. -/
def send_audio (clip : Clip) : List (List ℤ) :=
  match clip.audio with
  | none => []
  | some arr => send_audio_chunks (audioPCM arr)

/-! ## Queue units and runs

Both variants share one `asyncio.Queue`.  The producers enqueue dict-shaped
messages (`{"mime_type": "image/jpeg", ...}` and `{"mime_type": "audio/pcm",
...}`); the sender additionally checks for a `None` sentinel.  The queue
element type is therefore `Option QUnit`, with `none` as the sentinel. -/

/-- A dict-shaped media message put on the queue: a JPEG frame or a PCM
audio chunk. -/
inductive QUnit where
  | frameMsg (f : Frame)
  | audioMsg (chunk : List ℤ)
deriving DecidableEq

/-- The queue messages the frame producer enqueues during a run (gemini.py
line 119 / video_description.py line 74): one `some` frame message per
produced frame, in order. -/
def runFrameUnits (clip : Clip) (maxDuration interval : ℚ) : List (Option QUnit) :=
  (send_frames clip maxDuration interval).map (fun f => some (QUnit.frameMsg f))

/-- The queue messages the audio producer enqueues during a run (gemini.py
line 136 / video_description.py line 107): one `some` audio message per
chunk, in order. -/
def runAudioUnits (clip : Clip) : List (Option QUnit) :=
  (send_audio clip).map (fun c => some (QUnit.audioMsg c))

/-- `Interleave xs ys zs`: `zs` is an order-preserving interleaving of `xs`
and `ys`.  The FIFO queue delivers to the sender some interleaving of the two
producers' enqueue sequences. -/
inductive Interleave : List (Option QUnit) → List (Option QUnit) → List (Option QUnit) → Prop where
  | nil : Interleave [] [] []
  | left {x : Option QUnit} {xs ys zs : List (Option QUnit)} :
      Interleave xs ys zs → Interleave (x :: xs) ys (x :: zs)
  | right {y : Option QUnit} {xs ys zs : List (Option QUnit)} :
      Interleave xs ys zs → Interleave xs (y :: ys) (y :: zs)

/-! ## SessionSender: `send_to_session`

Service variant (gemini.py lines 142-150): `frames = int(min(clip.duration,
max_duration))`; the loop dequeues, breaks on `None`, increments `count` for
EVERY message, and sends with `end_of_turn = (count >= frames)`.

Standalone variant (video_description.py lines 117-135): `total_frames = 10`
hard-coded; tuple-tagged text messages are sent with `end_of_turn = True`
(dead code: neither producer enqueues tuples); every other message increments
`frames_sent` and is sent with `end_of_turn = (frames_sent == 10)`. -/

/-- Expected frame count of the service sender:
`int(min(clip.duration, max_duration))` (gemini.py line 143). -/
def framesExpected (clip : Clip) (maxDuration : ℚ) : ℕ :=
  (pyTrunc (min clip.duration maxDuration)).toNat

/-- The service sender loop: processes dequeued messages until the `None`
sentinel, pairing each sent unit with its `end_of_turn` flag. -/
def sendLoop (frames : ℕ) : ℕ → List (Option QUnit) → List (QUnit × Bool)
  | _, [] => []
  | _, none :: _ => []
  | count, some m :: rest =>
      (m, decide (frames ≤ count + 1)) :: sendLoop frames (count + 1) rest

/-- The service variant `send_to_session` over the dequeued sequence. -/
def send_to_session (frames : ℕ) (msgs : List (Option QUnit)) : List (QUnit × Bool) :=
  sendLoop frames 0 msgs

/-- A standalone-variant queue message: a media dict or a `("text", s)`
tuple. -/
inductive SMsg where
  | media (u : QUnit)
  | textMsg (s : String)
deriving DecidableEq

/-- The standalone sender loop (counter `frames_sent`, total hard-coded by
the caller to 10). -/
def standaloneLoop (total : ℕ) : ℕ → List (Option SMsg) → List (SMsg × Bool)
  | _, [] => []
  | _, none :: _ => []
  | sent, some (SMsg.textMsg s) :: rest =>
      (SMsg.textMsg s, true) :: standaloneLoop total sent rest
  | sent, some (SMsg.media u) :: rest =>
      (SMsg.media u, decide (sent + 1 = total)) :: standaloneLoop total (sent + 1) rest

/-- The standalone variant `send_to_session` over the dequeued sequence,
with its hard-coded `total_frames = 10`. -/
def standalone_send_to_session (msgs : List (Option SMsg)) : List (SMsg × Bool) :=
  standaloneLoop 10 0 msgs

/-- Does the sender loop ever dequeue the sentinel?  The loop terminates
normally exactly when a `none` occurs in the dequeued sequence; otherwise it
stays blocked on `queue.get()` after the last message. -/
def senderSeesSentinel (msgs : List (Option QUnit)) : Bool :=
  msgs.any Option.isNone

/-! ## ResponseCollector: `receive` / `receive_descriptions`

A response event carries an optional text fragment and an optional binary
payload (`response.text` / `response.data`).  The `while True` receive loop
only ends when `session.receive()` (or iteration) raises, so a collector run
is a finite list of events followed by one raised exception. -/

/-- One streamed response event. -/
structure RecvEvent where
  text : Option String
  data : Option (List ℕ)
deriving DecidableEq

/-- A Python exception interrupting the receive loop: an ordinary
`Exception` with its message, or `asyncio.CancelledError` (a
`BaseException`). -/
inductive PyExc where
  | exc (msg : String)
  | cancelled
deriving DecidableEq

/-- The fragment accumulation both collectors perform: append
`response.text` when it is truthy (non-`None` and non-empty); binary
payloads are ignored. -/
def collectTexts : List RecvEvent → List String
  | [] => []
  | r :: rest =>
      match r.text with
      | some t => if t = "" then collectTexts rest else t :: collectTexts rest
      | none => collectTexts rest

/-- The service collector `receive` (gemini.py lines 152-163): the bare
`except: pass` swallows every exception, including `CancelledError`, and the
result is always `''.join(full_text).strip()`. -/
def receive (events : List RecvEvent) (e : PyExc) : String :=
  pyStrip (concatAll (collectTexts events))

/-- The standalone collector `receive_descriptions` (video_description.py
lines 137-166): `except Exception as e` re-raises unless `"closed" in
str(e).lower()`; on the closed signal the accumulated fragments are kept. -/
def receive_descriptions (events : List RecvEvent) (emsg : String) :
    Except String (List String) :=
  if containsClosed emsg then Except.ok (collectTexts events)
  else Except.error emsg

/-! ## PipelineCoordinator: `analyze_video`

gemini.py lines 64-185.  The coordinator is modelled as a function of an
environment recording which fallible step of the run succeeds:

* `depsAvailable`  — the `moviepy`/`numpy` import succeeds (lines 69-74);
* `sourceIsBytes`  — the input is raw bytes, so a temp file is created
  (lines 82-87);
* `openOk`         — `VideoFileClip(video_path)` succeeds (line 91);
* `connectOk`      — `client.aio.live.connect(...)` succeeds (line 165);
* `workerExc`      — an `Exception` raised by a streaming worker and
  re-raised by the `TaskGroup` as an `ExceptionGroup` (lines 166-170), if any
  (the collector itself never raises, its bare `except` swallows);
* `cancelled`      — an external `CancelledError` (a `BaseException`, not
  caught by `except Exception`) interrupts the streaming phase;
* `events`, `streamEnd` — what the collector observes.

On the happy path the function returns the collector's result, closes the
clip (line 172) and unlinks the temp file (lines 175-176).  Every
`except Exception` path (lines 180-185) unlinks the temp file but never
closes the clip; a `CancelledError` propagates before any cleanup. -/

/-- Which cleanup actions ran on the taken exit path. -/
structure Cleanup where
  decoderClosed : Bool
  tempFileDeleted : Bool
deriving DecidableEq

/-- What `analyze_video` does at its exit: return a value, or let a
`BaseException` propagate to the caller. -/
inductive AVReturn where
  | ret (r : Option String)
  | raised
deriving DecidableEq

/-- The environment of one `analyze_video` run. -/
structure Env where
  depsAvailable : Bool
  sourceIsBytes : Bool
  openOk : Bool
  connectOk : Bool
  workerExc : Option String
  cancelled : Bool
  events : List RecvEvent
  streamEnd : PyExc
deriving DecidableEq

/-- The coordinator `analyze_video`: its return value and the cleanup that
ran, as a function of the run environment. -/
def analyze_video (env : Env) : AVReturn × Cleanup :=
  if env.depsAvailable = false then
    (AVReturn.ret none, { decoderClosed := false, tempFileDeleted := false })
  else if env.openOk = false then
    (AVReturn.ret none,
     { decoderClosed := false, tempFileDeleted := env.sourceIsBytes })
  else if env.connectOk = false then
    (AVReturn.ret none,
     { decoderClosed := false, tempFileDeleted := env.sourceIsBytes })
  else if env.cancelled then
    (AVReturn.raised, { decoderClosed := false, tempFileDeleted := false })
  else
    match env.workerExc with
    | some _ =>
        (AVReturn.ret none,
         { decoderClosed := false, tempFileDeleted := env.sourceIsBytes })
    | none =>
        (AVReturn.ret (some (receive env.events env.streamEnd)),
         { decoderClosed := true, tempFileDeleted := env.sourceIsBytes })

/-! ## OutgoingQueue model

Modelled from the spec and the documented semantics of the standard-library
`asyncio.Queue` primitive instantiated at gemini.py line 106
(`asyncio.Queue(maxsize=20)`) and video_description.py line 53
(`asyncio.Queue(maxsize=10)`): a bounded FIFO whose `put` suspends while the
queue is full and whose `get` suspends while it is empty.  A suspended
(blocked) operation is modelled as the step being disabled (`none`). -/

/-- `put`: enabled only while the queue holds fewer than `cap` units;
appends at the tail. -/
def qPut (cap : ℕ) (s : List (Option QUnit)) (u : Option QUnit) :
    Option (List (Option QUnit)) :=
  if s.length < cap then some (s ++ [u]) else none

/-- `get`: enabled only while the queue is non-empty; removes the oldest
unit. -/
def qGet (s : List (Option QUnit)) : Option (Option QUnit × List (Option QUnit)) :=
  match s with
  | [] => none
  | u :: rest => some (u, rest)

/-- Queue states reachable from empty by enabled puts and gets. -/
inductive QReach (cap : ℕ) : List (Option QUnit) → Prop where
  | init : QReach cap []
  | put {s s' : List (Option QUnit)} {u : Option QUnit} :
      QReach cap s → qPut cap s u = some s' → QReach cap s'
  | get {s s' : List (Option QUnit)} {u : Option QUnit} :
      QReach cap s → qGet s = some (u, s') → QReach cap s'

/-- The service variant's queue capacity (gemini.py line 106). -/
def serviceQueueCapacity : ℕ := 20

/-- The standalone variant's queue capacity (video_description.py
line 53). -/
def standaloneQueueCapacity : ℕ := 10

/-! ## Concrete run instances used by witnesses and counterexamples -/

/-- A 3-second silent 100×50 clip. -/
def clipW : Clip := ⟨3, 100, 50, none⟩

/-- A 3-second 1920×1080 silent clip. -/
def clipV : Clip := ⟨3, 1920, 1080, none⟩

/-- A two-sample stereo audio track (1/8000 s of audio at 16 kHz). -/
def arrA : AudioArr := AudioArr.stereo [(1/2, 1/4), (1, 1)]

/-- A 3-second 4×4 clip whose audio track decodes to `arrA`. -/
def clipA : Clip := ⟨3, 4, 4, some arrA⟩

/-- A 2-second 4×4 clip with a short audio track: the service pipeline
produces 2 frame units and 1 audio unit for it. -/
def clipC : Clip := ⟨2, 4, 4, some (AudioArr.mono [1/2])⟩

/-- The units enqueued in a run on `clipC` (service parameters
`max_duration = 10`, interval 1), in frames-then-audio FIFO order. -/
def dqUnitsC : List QUnit :=
  (send_frames clipC 10 1).map QUnit.frameMsg ++ (send_audio clipC).map QUnit.audioMsg

/-- The corresponding dequeued sequence seen by the service sender. -/
def dqC : List (Option QUnit) := dqUnitsC.map some

/-- Run environment: the `moviepy`/`numpy` import fails. -/
def envNoDeps : Env := ⟨false, false, true, true, none, false, [], PyExc.exc ""⟩

/-- Run environment: bytes input, clip opened, session connected, and a
worker raises a mid-stream send error. -/
def envSendFail : Env := ⟨true, true, true, true, some ("SendError"), false, [], PyExc.exc ""⟩

/-- Run environment: a full run whose receive loop sees one text fragment
and then a genuine (non-closed) failure. -/
def envBoom : Env :=
  ⟨true, false, true, true, none, false, [⟨some ("hi"), none⟩], PyExc.exc ("boom")⟩

/-! ## Helper lemmas -/

/-- `img.thumbnail([b, b])` never produces a dimension above `b`. -/
theorem thumbnail_fst_le (w h b : ℕ) : (thumbnail w h b).1 ≤ b ∧ (thumbnail w h b).2 ≤ b := by
  unfold thumbnail
  split
  · next hc => exact ⟨hc.1, hc.2⟩
  · next hc =>
    split
    · next hw =>
      have hwpos : 0 < w := by omega
      refine ⟨le_refl b, ?_⟩
      calc h * b / w ≤ w * b / w := Nat.div_le_div_right (Nat.mul_le_mul_right b hw)
        _ = b := Nat.mul_div_cancel_left b hwpos
    · next hw =>
      have hhpos : 0 < h := by omega
      refine ⟨?_, le_refl b⟩
      calc w * b / h ≤ h * b / h := Nat.div_le_div_right (Nat.mul_le_mul_right b (by omega))
        _ = b := Nat.mul_div_cancel_left b hhpos

/-- Appending the two producer sequences is one possible FIFO interleaving. -/
theorem interleave_append (xs ys : List (Option QUnit)) : Interleave xs ys (xs ++ ys) := by
  induction xs with
  | nil =>
      induction ys with
      | nil => exact Interleave.nil
      | cons y ys ih => exact Interleave.right ih
  | cons x xs ih => exact Interleave.left ih

/-- `any` over an interleaving is the disjunction of `any` over the parts. -/
theorem interleave_any (p : Option QUnit → Bool) {xs ys zs : List (Option QUnit)}
    (h : Interleave xs ys zs) : zs.any p = (xs.any p || ys.any p) := by
  induction h with
  | nil => simp
  | left h ih => simp [List.any_cons, ih, Bool.or_assoc]
  | right h ih =>
      simp [List.any_cons, ih]
      cases p _ <;> cases List.any _ p <;> simp

/-- A list of `some`-tagged units contains no sentinel. -/
theorem any_isNone_map_some (l : List QUnit) : (l.map some).any Option.isNone = false := by
  induction l with
  | nil => rfl
  | cons x l ih => simp [List.any_cons, ih]

/-- A list of units tagged by any `some`-producing function contains no
sentinel. -/
theorem any_isNone_map_some_comp {α : Type} (g : α → QUnit) (l : List α) :
    (l.map (fun a => some (g a))).any Option.isNone = false := by
  induction l with
  | nil => rfl
  | cons x l ih => simp [List.any_cons, ih]

/-- The `end_of_turn` flags emitted by the service sender loop: with `count`
already counted, the `i`-th remaining unit is flagged iff
`frames ≤ count + i + 1`. -/
theorem sendLoop_map_snd (frames : ℕ) (units : List QUnit) :
    ∀ count : ℕ,
      (sendLoop frames count (units.map some)).map Prod.snd
        = (List.range units.length).map (fun i => decide (frames ≤ count + i + 1)) := by
  induction units with
  | nil => intro count; rfl
  | cons u rest ih =>
      intro count
      show decide (frames ≤ count + 1) :: (sendLoop frames (count + 1) (rest.map some)).map Prod.snd
        = _
      rw [List.length_cons, List.range_succ_eq_map, List.map_cons, List.map_map, ih (count + 1)]
      refine congrArg₂ _ (by norm_num) ?_
      refine List.map_congr_left ?_
      intro i hi
      have h : count + 1 + i + 1 = count + (Nat.succ i) + 1 := by omega
      simp only [Function.comp_apply]
      rw [h]

/-- The `end_of_turn` flags emitted by the standalone sender loop on
media-only traffic: the `i`-th remaining unit is flagged iff
`sent + i + 1 = total`. -/
theorem standaloneLoop_map_snd (total : ℕ) (units : List QUnit) :
    ∀ sent : ℕ,
      (standaloneLoop total sent (units.map (fun u => some (SMsg.media u)))).map Prod.snd
        = (List.range units.length).map (fun i => decide (sent + i + 1 = total)) := by
  induction units with
  | nil => intro sent; rfl
  | cons u rest ih =>
      intro sent
      show decide (sent + 1 = total)
          :: (standaloneLoop total (sent + 1) (rest.map (fun u => some (SMsg.media u)))).map Prod.snd
        = _
      rw [List.length_cons, List.range_succ_eq_map, List.map_cons, List.map_map, ih (sent + 1)]
      refine congrArg₂ _ (by norm_num) ?_
      refine List.map_congr_left ?_
      intro i hi
      have h : sent + 1 + i + 1 = sent + (Nat.succ i) + 1 := by omega
      simp only [Function.comp_apply]
      rw [h]

/-- Counting sent units whose flag is `true`. -/
theorem length_filter_snd (l : List (QUnit × Bool)) :
    (l.filter (fun p => p.2)).length = (l.map Prod.snd).count true := by
  induction l with
  | nil => rfl
  | cons x l ih =>
      rw [List.map_cons, List.count_cons]
      cases hx : x.2 <;> simp [List.filter_cons, hx, ih]

/-- The chunking loop does nothing on an empty PCM stream. -/
theorem send_audio_chunks_nil : send_audio_chunks [] = [] := rfl

/-- Unfolding of the chunking loop: the first slice is `audio[0:1024]`, the
rest chunks `audio[1024:]`. -/
theorem send_audio_chunks_cons (pcm : List ℤ) (h : pcm ≠ []) :
    send_audio_chunks pcm = pcm.take 1024 :: send_audio_chunks (pcm.drop 1024) := by
  have hlen : 0 < pcm.length := List.length_pos.mpr h
  unfold send_audio_chunks pyRangeStep
  have hk : (pcm.length + 1024 - 1) / 1024
      = ((pcm.drop 1024).length + 1024 - 1) / 1024 + 1 := by
    rw [List.length_drop]; omega
  rw [hk, List.range_succ_eq_map]
  simp only [List.map_cons, List.map_map]
  refine congrArg₂ _ (by simp) ?_
  refine List.map_congr_left ?_
  intro j hj
  simp only [Function.comp_apply]
  rw [List.drop_drop]
  have hsucc : Nat.succ j * 1024 = 1024 + j * 1024 := by omega
  rw [hsucc]

/-- The enqueued audio chunks concatenate back to the full PCM stream, in
order. -/
theorem send_audio_chunks_flatten (pcm : List ℤ) :
    (send_audio_chunks pcm).flatten = pcm := by
  have main : ∀ (n : ℕ) (l : List ℤ), l.length ≤ n → (send_audio_chunks l).flatten = l := by
    intro n
    induction n with
    | zero =>
        intro l hl
        have : l = [] := List.length_eq_zero.mp (Nat.le_zero.mp hl)
        subst this; rfl
    | succ n ih =>
        intro l hl
        rcases eq_or_ne l [] with rfl | hne
        · rfl
        · rw [send_audio_chunks_cons l hne, List.flatten_cons,
            ih (l.drop 1024) (by rw [List.length_drop]; omega)]
          exact List.take_append_drop 1024 l
  exact main pcm.length pcm le_rfl

/-- Every enqueued audio chunk is non-empty and holds at most 1024
samples. -/
theorem send_audio_chunks_sizes (pcm : List ℤ) :
    ∀ c ∈ send_audio_chunks pcm, c ≠ [] ∧ c.length ≤ 1024 := by
  have main : ∀ (n : ℕ) (l : List ℤ), l.length ≤ n →
      ∀ c ∈ send_audio_chunks l, c ≠ [] ∧ c.length ≤ 1024 := by
    intro n
    induction n with
    | zero =>
        intro l hl c hc
        have : l = [] := List.length_eq_zero.mp (Nat.le_zero.mp hl)
        subst this
        simp [send_audio_chunks_nil] at hc
    | succ n ih =>
        intro l hl c hc
        rcases eq_or_ne l [] with rfl | hne
        · simp [send_audio_chunks_nil] at hc
        · rw [send_audio_chunks_cons l hne] at hc
          rcases List.mem_cons.mp hc with rfl | hc
          · constructor
            · simp only [ne_eq, List.take_eq_nil_iff]
              push_neg
              exact ⟨by omega, hne⟩
            · rw [List.length_take]; omega
          · exact ih (l.drop 1024) (by rw [List.length_drop]; omega) c hc
  exact main pcm.length pcm le_rfl

/-- Every enqueued audio chunk except the last holds exactly 1024
samples. -/
theorem send_audio_chunks_dropLast (pcm : List ℤ) :
    ∀ c ∈ (send_audio_chunks pcm).dropLast, c.length = 1024 := by
  have main : ∀ (n : ℕ) (l : List ℤ), l.length ≤ n →
      ∀ c ∈ (send_audio_chunks l).dropLast, c.length = 1024 := by
    intro n
    induction n with
    | zero =>
        intro l hl c hc
        have : l = [] := List.length_eq_zero.mp (Nat.le_zero.mp hl)
        subst this
        simp [send_audio_chunks_nil] at hc
    | succ n ih =>
        intro l hl c hc
        rcases eq_or_ne l [] with rfl | hne
        · simp [send_audio_chunks_nil] at hc
        · rw [send_audio_chunks_cons l hne] at hc
          rcases eq_or_ne (send_audio_chunks (l.drop 1024)) [] with hrest | hrest
          · rw [hrest] at hc
            simp at hc
          · rw [List.dropLast_cons_of_ne_nil hrest] at hc
            rcases List.mem_cons.mp hc with rfl | hc
            · have hdrop : l.drop 1024 ≠ [] := by
                intro hd
                exact hrest (by rw [hd]; rfl)
              have : 1024 < l.length := by
                by_contra hle
                exact hdrop (List.drop_eq_nil_of_le (by omega))
              rw [List.length_take]; omega
            · exact ih (l.drop 1024) (by rw [List.length_drop]; omega) c hc
  exact main pcm.length pcm le_rfl

/-- Dropped empty fragments do not change the concatenation: the accumulated
buffer joins to the join of all text fragments. -/
theorem concatAll_collectTexts (events : List RecvEvent) :
    concatAll (collectTexts events) = concatAll (events.filterMap RecvEvent.text) := by
  induction events with
  | nil => rfl
  | cons r rest ih =>
      rw [collectTexts, List.filterMap_cons]
      cases hr : r.text with
      | none => exact ih
      | some t =>
          by_cases ht : t = ""
          · subst ht
            simp only [if_pos rfl, ite_true, ih, concatAll]
            exact (String.empty_append _).symm
          · simp only [if_neg ht]
            rw [concatAll, concatAll, ih]

/-- The collectors never read the binary payload of an event. -/
theorem collectTexts_data_irrelevant (f : RecvEvent → Option (List ℕ))
    (events : List RecvEvent) :
    collectTexts (events.map (fun r => { text := r.text, data := f r }))
      = collectTexts events := by
  induction events with
  | nil => rfl
  | cons r rest ih =>
      rw [List.map_cons, collectTexts, collectTexts]
      cases r.text with
      | none => exact ih
      | some t =>
          by_cases ht : t = ""
          · simp only [if_pos ht]; exact ih
          · simp only [if_neg ht]; rw [ih]

/-- Invariant of the bounded queue: no reachable state exceeds the
capacity. -/
theorem qreach_length_le (cap : ℕ) : ∀ s, QReach cap s → s.length ≤ cap := by
  intro s h
  induction h with
  | init => simp
  | put h1 h2 ih =>
      unfold qPut at h2
      split at h2
      · next hlt =>
          cases h2
          rw [List.length_append]
          simpa using hlt
      · cases h2
  | get h1 h2 ih =>
      next s s' u =>
        unfold qGet at h2
        match s, h2 with
        | x :: rest, h2 =>
            cases h2
            exact le_trans (by simp) ih

/-! ## Claim theorems -/

/-- **C4** (confirmed): for a source of duration `D`, duration cap
`maxDuration` and frame interval `I` (positive, as in the code where it is
1.0), the frame producer enqueues exactly `⌈min D maxDuration / I⌉`
VideoFrame units, and every enqueued frame has width and height at most
768 pixels. -/
theorem c4_frame_count_and_dimensions (clip : Clip) (maxDuration interval : ℚ)
    (hI : 0 < interval) (hD : 0 ≤ clip.duration) (hM : 0 ≤ maxDuration) :
    (((send_frames clip maxDuration interval).length : ℤ)
        = ⌈min clip.duration maxDuration / interval⌉)
    ∧ ∀ f ∈ send_frames clip maxDuration interval, f.width ≤ 768 ∧ f.height ≤ 768 := by
  constructor
  · rw [send_frames, npArange]
    simp only [List.length_map, List.length_range]
    rw [sub_zero]
    exact Int.toNat_of_nonneg (Int.ceil_nonneg (div_nonneg (le_min hD hM) hI.le))
  · intro f hf
    rw [send_frames] at hf
    rcases List.mem_map.mp hf with ⟨t, ht, rfl⟩
    exact thumbnail_fst_le clip.width clip.height 768

/-- Witness for C4: a 3-second 1920×1080 silent clip at the code's
parameters (cap 10.0, interval 1.0). -/
theorem c4_witness :
    (0 : ℚ) < 1 ∧ (0 : ℚ) ≤ clipV.duration ∧ (0 : ℚ) ≤ 10
    ∧ ((send_frames clipV 10 1).length : ℤ) = ⌈min clipV.duration 10 / 1⌉ :=
  ⟨by decide, by decide, by decide,
    (c4_frame_count_and_dimensions clipV 10 1 (by decide) (by decide) (by decide)).1⟩

/-- **C8** (confirmed): both queues are bounded FIFOs with capacity in the
10–20 range (20 in the service variant, 10 in the standalone variant); no
reachable queue state exceeds the capacity; a put on a full queue is
disabled (blocks) and enabled with space; a get on an empty queue is
disabled (blocks) and otherwise dequeues the oldest unit. -/
theorem c8_bounded_queue :
    (10 ≤ serviceQueueCapacity ∧ serviceQueueCapacity ≤ 20)
    ∧ (10 ≤ standaloneQueueCapacity ∧ standaloneQueueCapacity ≤ 20)
    ∧ (∀ s, QReach serviceQueueCapacity s → s.length ≤ serviceQueueCapacity)
    ∧ (∀ s, QReach standaloneQueueCapacity s → s.length ≤ standaloneQueueCapacity)
    ∧ (∀ s u, s.length = serviceQueueCapacity → qPut serviceQueueCapacity s u = none)
    ∧ (∀ s u, s.length = standaloneQueueCapacity → qPut standaloneQueueCapacity s u = none)
    ∧ (∀ cap s u, s.length < cap → qPut cap s u = some (s ++ [u]))
    ∧ qGet [] = none
    ∧ (∀ u s, qGet (u :: s) = some (u, s)) := by
  refine ⟨⟨by decide, by decide⟩, ⟨by decide, by decide⟩,
    qreach_length_le serviceQueueCapacity, qreach_length_le standaloneQueueCapacity,
    ?_, ?_, ?_, rfl, fun u s => rfl⟩
  · intro s u h
    rw [qPut, if_neg]
    omega
  · intro s u h
    rw [qPut, if_neg]
    omega
  · intro cap s u h
    rw [qPut, if_pos h]

/-- Witness for C8: a one-element state is reachable and within capacity; a
put on a full 20-slot queue is disabled; a put on the empty standalone
queue is enabled. -/
theorem c8_witness :
    [some (QUnit.audioMsg [])].length ≤ serviceQueueCapacity
    ∧ qPut serviceQueueCapacity (List.replicate 20 (none : Option QUnit)) none = none
    ∧ qPut standaloneQueueCapacity [] (some (QUnit.audioMsg []))
        = some [some (QUnit.audioMsg [])] :=
  ⟨c8_bounded_queue.2.2.1 _ (QReach.put QReach.init rfl),
   c8_bounded_queue.2.2.2.2.1 _ none (by decide),
   c8_bounded_queue.2.2.2.2.2.2.1 standaloneQueueCapacity [] _ (by decide)⟩

/-- **C10** (confirmed): the service entry point `analyze_video` never lets
an internal failure propagate — whenever no external `CancelledError`
(a `BaseException`) interrupts the run, nothing is raised, and each of the
enumerated internal failures (missing decoder dependency, unreadable media,
session failure, worker error) yields the return value `None`; moreover the
`receive` worker's bare `except` swallows every exception, including task
cancellation, and the result is always the joined accumulated text. -/
theorem c10_analyze_video_never_raises :
    (∀ env : Env, env.cancelled = false → (analyze_video env).1 ≠ AVReturn.raised)
    ∧ (∀ env : Env, env.cancelled = false →
        (env.depsAvailable = false ∨ env.openOk = false ∨ env.connectOk = false
          ∨ env.workerExc ≠ none) →
        (analyze_video env).1 = AVReturn.ret none)
    ∧ (∀ (events : List RecvEvent) (e e' : PyExc), receive events e = receive events e')
    ∧ (∀ (events : List RecvEvent) (e : PyExc),
        receive events e = pyStrip (concatAll (collectTexts events))) := by
  refine ⟨?_, ?_, fun events e e' => rfl, fun events e => rfl⟩
  · intro env hc
    obtain ⟨d, b, o, c, w, cc, ev, se⟩ := env
    cases hc
    cases d <;> cases o <;> cases c <;> cases w <;> simp [analyze_video]
  · intro env hc hfail
    obtain ⟨d, b, o, c, w, cc, ev, se⟩ := env
    cases hc
    cases d <;> cases o <;> cases c <;> cases w <;> simp_all [analyze_video]

/-- Witness for C10: the import-failure run returns `None` without raising,
and the collector result does not depend on the exception (here: an
ordinary error vs. cancellation). -/
theorem c10_witness :
    envNoDeps.cancelled = false
    ∧ (analyze_video envNoDeps).1 ≠ AVReturn.raised
    ∧ (analyze_video envNoDeps).1 = AVReturn.ret none
    ∧ receive [] (PyExc.exc ("boom")) = receive [] PyExc.cancelled :=
  ⟨rfl, c10_analyze_video_never_raises.1 envNoDeps rfl,
   c10_analyze_video_never_raises.2.1 envNoDeps rfl (Or.inl rfl),
   c10_analyze_video_never_raises.2.2.1 [] (PyExc.exc ("boom")) PyExc.cancelled⟩

/-- **C2** (corrected — counterexample): on the worker-failure exit path of
`analyze_video` (bytes input, clip opened, session connected, a worker
raises a send error) the temp file is deleted but the decoder handle is
never released: there is no `clip.close()` in the `except Exception`
handler at gemini.py lines 180-185.  This refutes the claim that the
decoder is released on every exit path. -/
theorem c2_counterexample :
    (analyze_video envSendFail).1 = AVReturn.ret none
    ∧ (analyze_video envSendFail).2.tempFileDeleted = true
    ∧ (analyze_video envSendFail).2.decoderClosed = false :=
  ⟨rfl, rfl, rfl⟩

/-- **C2** (amended): the decoder handle is released exactly on the
normal-completion path (dependencies present, open and connect succeed, no
cancellation, no worker failure); the temporary file, when one was
materialized from raw bytes, is deleted on the normal path and on every
`except Exception` path, but neither cleanup runs when a `CancelledError`
interrupts the streaming phase. -/
theorem c2_cleanup_per_path (env : Env) :
    ((analyze_video env).2.decoderClosed = true ↔
      env.depsAvailable = true ∧ env.openOk = true ∧ env.connectOk = true
        ∧ env.cancelled = false ∧ env.workerExc = none)
    ∧ ((analyze_video env).2.tempFileDeleted = true ↔
      env.depsAvailable = true ∧ env.sourceIsBytes = true
        ∧ ¬(env.openOk = true ∧ env.connectOk = true ∧ env.cancelled = true)) := by
  obtain ⟨d, b, o, c, w, cc, ev, se⟩ := env
  cases d <;> cases b <;> cases o <;> cases c <;> cases cc <;> cases w <;>
    simp [analyze_video]

/-- **C3** (corrected — counterexample): in the service variant the
collector's bare `except: pass` (gemini.py lines 161-162) swallows a
failure whose cause is not connection-closed: with one received fragment
and a `"boom"` error the run returns the text as a success instead of
surfacing the failure. -/
theorem c3_counterexample :
    containsClosed ("boom") = false
    ∧ receive [⟨some ("hi"), none⟩] (PyExc.exc ("boom")) = "hi"
    ∧ (analyze_video envBoom).1 = AVReturn.ret (some ("hi")) := by
  refine ⟨by decide, by decide, by decide⟩

/-- **C3** (amended): only the standalone collector implements the stated
policy — it succeeds with the accumulated text exactly when the failure
message contains "closed" (case-insensitively) and re-raises the failure
otherwise; the service collector returns the accumulated text for every
failure whatsoever. -/
theorem c3_collector_error_policy (events : List RecvEvent) (emsg : String) (e : PyExc) :
    (receive_descriptions events emsg = Except.ok (collectTexts events)
        ↔ containsClosed emsg = true)
    ∧ (receive_descriptions events emsg = Except.error emsg
        ↔ containsClosed emsg = false)
    ∧ receive events e = pyStrip (concatAll (collectTexts events)) := by
  refine ⟨?_, ?_, rfl⟩
  · cases hcc : containsClosed emsg <;> simp [receive_descriptions, hcc]
  · cases hcc : containsClosed emsg <;> simp [receive_descriptions, hcc]

/-- **C6** (corrected — counterexample): at a failing input (the decoder
dependency import fails) `analyze_video` returns the untyped absent result
`None`; no `PipelineError` taxonomy exists anywhere in the code. -/
theorem c6_counterexample :
    envNoDeps.depsAvailable = false ∧ (analyze_video envNoDeps).1 = AVReturn.ret none :=
  ⟨rfl, rfl⟩

/-- **C6** (amended): barring external cancellation, the caller of
`analyze_video` receives either the collected text or the untyped `None`;
every enumerated failure (missing dependency, unreadable media, handshake
failure, worker error) yields `None`, not a typed error. -/
theorem c6_untyped_result_or_none (env : Env) (hc : env.cancelled = false) :
    ((analyze_video env).1 = AVReturn.ret none
      ∨ (analyze_video env).1 = AVReturn.ret (some (receive env.events env.streamEnd)))
    ∧ ((env.depsAvailable = false ∨ env.openOk = false ∨ env.connectOk = false
        ∨ env.workerExc ≠ none) → (analyze_video env).1 = AVReturn.ret none) := by
  obtain ⟨d, b, o, c, w, cc, ev, se⟩ := env
  cases hc
  constructor
  · cases d <;> cases o <;> cases c <;> cases w <;> simp [analyze_video, receive]
  · intro hfail
    cases d <;> cases o <;> cases c <;> cases w <;> simp_all [analyze_video]

/-- Witness for C6: the import-failure environment. -/
theorem c6_witness :
    envNoDeps.cancelled = false
    ∧ ((analyze_video envNoDeps).1 = AVReturn.ret none
        ∨ (analyze_video envNoDeps).1
            = AVReturn.ret (some (receive envNoDeps.events envNoDeps.streamEnd))) :=
  ⟨rfl, (c6_untyped_result_or_none envNoDeps rfl).1⟩

/-- **C9** (corrected — counterexample): the service result is the
whitespace-stripped concatenation, not the concatenation itself: one
fragment `" a "` joins to `" a "` but the returned result is `"a"`. -/
theorem c9_counterexample :
    receive [⟨some (" a "), none⟩] (PyExc.exc ("closed")) = "a"
    ∧ concatAll (List.filterMap RecvEvent.text [⟨some (" a "), none⟩]) = " a "
    ∧ ("a" : String) ≠ " a " := by
  refine ⟨by decide, by decide, by decide⟩

/-- **C9** (amended): the final result equals `strip` of the concatenation,
in arrival order, of the text fragments of the received events, and the
binary payloads of the events contribute nothing to it. -/
theorem c9_result_is_stripped_concat (events : List RecvEvent) (e : PyExc)
    (f : RecvEvent → Option (List ℕ)) :
    receive events e = pyStrip (concatAll (events.filterMap RecvEvent.text))
    ∧ receive (events.map (fun r => { text := r.text, data := f r })) e
        = receive events e := by
  constructor
  · rw [receive, concatAll_collectTexts]
  · rw [receive, receive, collectTexts_data_irrelevant]

/-- **C7** (corrected — counterexample): `clipA` has an audio track of two
samples; the audio producer enqueues exactly one chunk holding 2 samples,
not 1024 — the final slice `audio[i:i+1024]` is shorter whenever the sample
count is not a multiple of 1024. -/
theorem c7_counterexample :
    (send_audio clipA).map List.length = [2] := by
  have h1 : (audioPCM arrA).length = 2 := by
    simp [audioPCM, toMono, arrA]
  have h2 : send_audio clipA = send_audio_chunks (audioPCM arrA) := rfl
  rw [h2, send_audio_chunks, pyRangeStep, h1]
  have hr : List.range ((2 + 1024 - 1) / 1024) = [0] := by decide
  rw [hr]
  simp [List.length_take, List.length_drop, h1]

/-- **C7** (amended): with no audio track the producer enqueues nothing;
otherwise it enqueues the 16 kHz mono 16-bit PCM stream split into chunks
of at most 1024 samples — every chunk except possibly the last holds
exactly 1024 samples, no chunk is empty, and the chunks concatenate back to
the PCM stream in timestamp order. -/
theorem c7_audio_chunking (clip : Clip) :
    (clip.audio = none → send_audio clip = [])
    ∧ (∀ arr, clip.audio = some arr → send_audio clip = send_audio_chunks (audioPCM arr))
    ∧ (∀ pcm : List ℤ, (send_audio_chunks pcm).flatten = pcm)
    ∧ (∀ pcm : List ℤ, ∀ c ∈ send_audio_chunks pcm, c ≠ [] ∧ c.length ≤ 1024)
    ∧ (∀ pcm : List ℤ, ∀ c ∈ (send_audio_chunks pcm).dropLast, c.length = 1024) := by
  refine ⟨?_, ?_, send_audio_chunks_flatten, send_audio_chunks_sizes,
    send_audio_chunks_dropLast⟩
  · intro h; simp [send_audio, h]
  · intro arr h; simp [send_audio, h]

set_option maxRecDepth 100000 in
/-- Witness for C7: a silent clip enqueues nothing; `clipA` enqueues the
chunked PCM stream; a 2-sample stream gives one non-empty chunk of at most
1024 samples that flattens back; a 1025-sample stream has a non-final chunk
of exactly 1024 samples. -/
theorem c7_witness :
    clipW.audio = none ∧ send_audio clipW = []
    ∧ clipA.audio = some arrA ∧ send_audio clipA = send_audio_chunks (audioPCM arrA)
    ∧ (([1, 2] : List ℤ) ≠ [] ∧ ([1, 2] : List ℤ).length ≤ 1024)
    ∧ List.replicate 1024 (0 : ℤ) ∈ (send_audio_chunks (List.replicate 1025 (0 : ℤ))).dropLast
    ∧ (List.replicate 1024 (0 : ℤ)).length = 1024
    ∧ (send_audio_chunks [(1 : ℤ), 2]).flatten = [1, 2] :=
  ⟨rfl, (c7_audio_chunking clipW).1 rfl, rfl,
   (c7_audio_chunking clipA).2.1 arrA rfl,
   (c7_audio_chunking clipA).2.2.2.1 [1, 2] [1, 2] (by decide),
   by decide,
   (c7_audio_chunking clipA).2.2.2.2 (List.replicate 1025 (0 : ℤ))
     (List.replicate 1024 (0 : ℤ)) (by decide),
   (c7_audio_chunking clipA).2.2.1 [1, 2]⟩

/-- **C5** (corrected — counterexample): a concrete full run on the silent
3-second clip `clipW`: both producers finish, having enqueued 3 frame units
and no audio units, yet no sentinel occurs anywhere in the dequeued
sequence — neither producer ever enqueues `None`, so the sender's
`if msg is None: break` never fires and the sender stays blocked on
`queue.get()` after the producers finish. -/
theorem c5_counterexample :
    Interleave (runFrameUnits clipW 10 1) (runAudioUnits clipW)
      (runFrameUnits clipW 10 1 ++ runAudioUnits clipW)
    ∧ (runFrameUnits clipW 10 1).length = 3
    ∧ runAudioUnits clipW = []
    ∧ senderSeesSentinel (runFrameUnits clipW 10 1 ++ runAudioUnits clipW) = false := by
  refine ⟨interleave_append _ _, ?_, rfl, ?_⟩
  · rw [runFrameUnits, List.length_map, send_frames, npArange]
    simp only [List.length_map, List.length_range]
    rw [show (min clipW.duration 10 - 0) / 1 = ((3 : ℤ) : ℚ) from by norm_num [clipW]]
    rw [Int.ceil_intCast]
    rfl
  · rw [senderSeesSentinel, List.any_append, runFrameUnits, runAudioUnits,
      any_isNone_map_some_comp, any_isNone_map_some_comp]
    rfl

/-- **C5** (amended): the sender terminates only on dequeuing the `None`
sentinel or on cancellation of the task scope, but no producer ever
enqueues that sentinel: in every run, every possible FIFO interleaving of
the two producers' enqueue sequences is sentinel-free, so after both
producers finish the sender blocks on the empty queue until the enclosing
scope is cancelled or fails. -/
theorem c5_no_sentinel_ever (clip : Clip) (maxDuration interval : ℚ)
    (dq : List (Option QUnit))
    (h : Interleave (runFrameUnits clip maxDuration interval) (runAudioUnits clip) dq) :
    senderSeesSentinel dq = false := by
  rw [senderSeesSentinel, interleave_any Option.isNone h, runFrameUnits, runAudioUnits,
    any_isNone_map_some_comp, any_isNone_map_some_comp]
  rfl

/-- Witness for C5: the frames-then-audio interleaving of a run on
`clipV`. -/
theorem c5_witness :
    Interleave (runFrameUnits clipV 10 1) (runAudioUnits clipV)
      (runFrameUnits clipV 10 1 ++ runAudioUnits clipV)
    ∧ senderSeesSentinel (runFrameUnits clipV 10 1 ++ runAudioUnits clipV) = false :=
  ⟨interleave_append _ _,
   c5_no_sentinel_ever clipV 10 1 _ (interleave_append _ _)⟩

/-- **C1** (corrected — counterexample): a run of the service pipeline on
`clipC` (duration 2 s, a short audio track): the producers enqueue 2 frame
units and 1 audio unit; with the frames-then-audio FIFO interleaving the
sender — whose counter counts every dequeued unit and which flags every
unit from the `frames`-th one onward — sends TWO units with
`end_of_turn = true` (the 2nd frame and the audio chunk), refuting
"exactly one". -/
theorem c1_counterexample :
    Interleave (runFrameUnits clipC 10 1) (runAudioUnits clipC) dqC
    ∧ framesExpected clipC 10 = 2
    ∧ ((send_to_session (framesExpected clipC 10) dqC).filter (fun p => p.2)).length = 2 := by
  have hframes : framesExpected clipC 10 = 2 := by
    rw [framesExpected]
    rw [show min clipC.duration (10 : ℚ) = ((2 : ℤ) : ℚ) from by norm_num [clipC]]
    rw [pyTrunc, if_pos (by positivity), Int.floor_intCast]
    rfl
  have hlen2 : (send_frames clipC 10 1).length = 2 := by
    rw [send_frames, npArange]
    simp only [List.length_map, List.length_range]
    rw [show (min clipC.duration 10 - 0) / 1 = ((2 : ℤ) : ℚ) from by norm_num [clipC]]
    rw [Int.ceil_intCast]
    rfl
  have hlen1 : (send_audio clipC).length = 1 := by
    have h1 : (audioPCM (AudioArr.mono [1/2])).length = 1 := by
      simp [audioPCM, toMono]
    rw [show send_audio clipC = send_audio_chunks (audioPCM (AudioArr.mono [1/2])) from rfl]
    rw [send_audio_chunks, pyRangeStep, h1]
    norm_num
  have hlen : dqUnitsC.length = 3 := by
    rw [dqUnitsC, List.length_append, List.length_map, List.length_map, hlen2, hlen1]
  have hdq : dqC = runFrameUnits clipC 10 1 ++ runAudioUnits clipC := by
    rw [dqC, dqUnitsC, List.map_append, runFrameUnits, runAudioUnits,
      List.map_map, List.map_map]
    rfl
  refine ⟨?_, hframes, ?_⟩
  · rw [hdq]
    exact interleave_append _ _
  · rw [hframes, dqC, length_filter_snd]
    show ((sendLoop 2 0 (dqUnitsC.map some)).map Prod.snd).count true = 2
    rw [sendLoop_map_snd 2 dqUnitsC 0, hlen]
    decide

/-- **C1** (amended): the sender counts every dequeued unit, frames and
audio chunks alike, not frame units only.  In the service variant the
`i`-th sent unit (0-based) carries `end_of_turn = (frames ≤ i + 1)` with
`frames = int(min(duration, max_duration))` — so the unit at which the
count reaches `frames` and every later unit are all flagged, and no unit is
flagged when fewer than `frames` units are dequeued.  In the standalone
variant exactly the 10th dequeued media unit is flagged (hard-coded total),
and none is when fewer than 10 units arrive. -/
theorem c1_flag_law :
    (∀ (frames : ℕ) (units : List QUnit),
      (send_to_session frames (units.map some)).map Prod.snd
        = (List.range units.length).map (fun i => decide (frames ≤ i + 1)))
    ∧ (∀ units : List QUnit,
      (standalone_send_to_session (units.map (fun u => some (SMsg.media u)))).map Prod.snd
        = (List.range units.length).map (fun i => decide (i + 1 = 10))) := by
  constructor
  · intro frames units
    show (sendLoop frames 0 (units.map some)).map Prod.snd = _
    rw [sendLoop_map_snd frames units 0]
    refine List.map_congr_left ?_
    intro i hi
    have h0 : 0 + i + 1 = i + 1 := by omega
    rw [h0]
  · intro units
    show (standaloneLoop 10 0 (units.map (fun u => some (SMsg.media u)))).map Prod.snd = _
    rw [standaloneLoop_map_snd 10 units 0]
    refine List.map_congr_left ?_
    intro i hi
    have h0 : 0 + i + 1 = i + 1 := by omega
    rw [h0]

end VideoPipe
